import Mathlib

/-!
Verification development for the streaming-with-fallback core of a desktop
chat client (single Python source file, OpenRouterFree.py).  The relevant
functions are shallowly embedded: the wire/HTTP layer is abstracted into an
inductive response type, the streaming generator `chat_with_cypher_alpha`
becomes a function from that response to the list of items it yields, the
worker `_stream_worker_with_fallback` becomes a function producing the list
of events it puts on the queue, and the queue consumer
`process_stream_queue` / `_on_stream_complete` becomes a state-transition
function over (is_streaming, current_stream_content, messages).
-/

namespace OpenRouterFree

/-- Error subtypes exactly as the strings used in the source:
"parse", "network", "auth_error", "rate_limit", "model_not_found", "http".
The specification names the same six-way partition with the spec-level names
parse, network, auth, rate_limit, model_not_found, http_other. -/
inductive ErrorSubtype where
  | parse
  | network
  | auth_error
  | rate_limit
  | model_not_found
  | http
deriving DecidableEq, Repr

/-- An error value yielded by the stream: the dict
\x7b"type": "error", "subtype": ..., "message": ..., "cooldown"?: ...\x7d. -/
structure ErrorEvent where
  subtype : ErrorSubtype
  message : String
  cooldown : Option Nat
deriving DecidableEq, Repr

/-- One item yielded by the generator chat_with_cypher_alpha: a content
string chunk, an error dict, or the terminal None marker. -/
inductive StreamItem where
  | content (s : String)
  | error (e : ErrorEvent)
  | endMarker
deriving DecidableEq, Repr

/-- One line of the response body, abstracting the SSE wire format:
`other` is a line not starting with "data: " (skipped by the source);
`done` is the "[DONE]" sentinel; `fragment c` is a well-formed JSON chunk
whose choices[0].delta has content `c` (none when the key is absent or
null); `malformed raw` is a line whose JSON decoding or key access raises
(JSONDecodeError / KeyError / IndexError), carrying the decoded raw text. -/
inductive WireLine where
  | other
  | done
  | fragment (c : Option String)
  | malformed (raw : String)
deriving DecidableEq, Repr

/-- Outcome of the HTTP POST, abstracting the requests library:
a streamed 2xx body as a list of lines; a timeout; an HTTPError from
raise_for_status with status code, body text, and the optionally parseable
error.message of the JSON body; or any other RequestException. -/
inductive HttpResponse where
  | success (lines : List WireLine)
  | timeout
  | httpError (status : Nat) (body : String) (jsonErrorMessage : Option String)
  | requestException (msg : String)
deriving DecidableEq, Repr

/-- Test whether the first list is a leading segment of the second. -/
def startsWithList : List Char → List Char → Bool
  | [], _ => true
  | _ :: _, [] => false
  | p :: ps, c :: cs => p == c && startsWithList ps cs

/-- Test whether the first list occurs contiguously inside the second
(the semantics of the Python `in` operator on strings). -/
def infixOfList (pat : List Char) : List Char → Bool
  | [] => startsWithList pat []
  | c :: cs => startsWithList pat (c :: cs) || infixOfList pat cs

/-- The check `"not found" in e.response.text.lower()` from the source;
lowercasing is the character-wise map that String.toLower performs. -/
def containsNotFound (body : String) : Bool :=
  infixOfList "not found".data (body.data.map Char.toLower)

/-- The body loop of chat_with_cypher_alpha: iterate the wire lines,
skipping non-data lines, breaking on [DONE], yielding content for valid
fragments with non-null content, yielding a parse error and continuing on a
malformed fragment, and yielding the final None marker after the loop. -/
def processLines (model : String) : List WireLine → List StreamItem
  | [] => [StreamItem.endMarker]
  | WireLine.other :: rest => processLines model rest
  | WireLine.done :: _ => [StreamItem.endMarker]
  | WireLine.fragment none :: rest => processLines model rest
  | WireLine.fragment (some c) :: rest => StreamItem.content c :: processLines model rest
  | WireLine.malformed raw :: rest =>
      StreamItem.error
        ⟨ErrorSubtype.parse, "Invalid data from " ++ model ++ ": " ++ raw, none⟩
        :: processLines model rest

/-- The detail message built for the generic HTTP error branch. -/
def httpDetails (model : String) (status : Nat) (jsonErrorMessage : Option String) : String :=
  "Server error " ++ toString status ++ " on " ++ model ++ "." ++
    (match jsonErrorMessage with
     | some m => " Details: " ++ m
     | none => "")

/-- Shallow embedding of chat_with_cypher_alpha (src lines 136-178): the
list of items the generator yields for a given HTTP outcome. -/
def chat_with_cypher_alpha (model : String) (r : HttpResponse) : List StreamItem :=
  match r with
  | HttpResponse.success lines => processLines model lines
  | HttpResponse.timeout =>
      [StreamItem.error
        ⟨ErrorSubtype.network, "Request timed out for " ++ model ++ ".", none⟩,
       StreamItem.endMarker]
  | HttpResponse.httpError status body jsonErrorMessage =>
      if status == 401 then
        [StreamItem.error
          ⟨ErrorSubtype.auth_error,
           "Authentication failed. The API key is invalid or has been revoked.", none⟩,
         StreamItem.endMarker]
      else if status == 429 then
        [StreamItem.error
          ⟨ErrorSubtype.rate_limit, "Rate limit reached. Please wait.", some 20⟩,
         StreamItem.endMarker]
      else if containsNotFound body || status == 404 then
        [StreamItem.error
          ⟨ErrorSubtype.model_not_found, "Model not found: " ++ model, none⟩,
         StreamItem.endMarker]
      else
        [StreamItem.error
          ⟨ErrorSubtype.http, httpDetails model status jsonErrorMessage, none⟩,
         StreamItem.endMarker]
  | HttpResponse.requestException msg =>
      [StreamItem.error ⟨ErrorSubtype.network, msg, none⟩, StreamItem.endMarker]

/-- One registry entry: \x7b"display": ..., "api": ...\x7d. -/
structure ModelDesc where
  display : String
  api : String
deriving DecidableEq, Repr

/-- The start index computed by the worker: the first registry index whose
display name equals the selection, or 0 when absent (StopIteration). -/
def startIndex (models : List ModelDesc) (selected : String) : Nat :=
  match models.findIdx? (fun m => m.display == selected) with
  | some i => i
  | none => 0

/-- fallback_order = available_models[start_index:] + available_models[:start_index]. -/
def fallback_order (models : List ModelDesc) (selected : String) : List ModelDesc :=
  models.drop (startIndex models selected) ++ models.take (startIndex models selected)

/-- One event put on the stream queue by the worker: a status dict, a
content dict tagged with the model display name, a relayed error dict, or
the terminal None (end-of-turn marker). -/
inductive QueueEvent where
  | status (message : String)
  | content (data : String) (modelName : String)
  | errorEvt (e : ErrorEvent)
  | endOfTurn
deriving DecidableEq, Repr

/-- The systemic-error test from the worker:
item.get("subtype") in ["auth_error", "rate_limit", "network"]. -/
def isSystemic : ErrorSubtype → Bool
  | ErrorSubtype.auth_error => true
  | ErrorSubtype.rate_limit => true
  | ErrorSubtype.network => true
  | _ => false

/-- Result of consuming one candidate's stream: the queue events pushed,
the final stream_had_content and last_item_was_error flags, and whether the
inner loop broke on a systemic error (setting has_succeeded). -/
structure CandResult where
  events : List QueueEvent
  hadContent : Bool
  lastWasError : Bool
  systemic : Bool
deriving DecidableEq, Repr

/-- The inner loop of the worker (src lines 440-452) over one candidate's
stream, with the two accumulator flags stream_had_content and
last_item_was_error.  A None item breaks; a string chunk is relayed tagged
with the display name; an error dict is relayed, and breaks the whole
fallback when its subtype is systemic. -/
def runCandidate (display : String) : List StreamItem → Bool → Bool → CandResult
  | [], hadC, lastE => ⟨[], hadC, lastE, false⟩
  | StreamItem.endMarker :: _, hadC, lastE => ⟨[], hadC, lastE, false⟩
  | StreamItem.content s :: rest, _, _ =>
      let r := runCandidate display rest true false
      ⟨QueueEvent.content s display :: r.events, r.hadContent, r.lastWasError, r.systemic⟩
  | StreamItem.error e :: rest, hadC, _ =>
      if isSystemic e.subtype then
        ⟨[QueueEvent.errorEvt e], hadC, true, true⟩
      else
        let r := runCandidate display rest hadC true
        ⟨QueueEvent.errorEvt e :: r.events, r.hadContent, r.lastWasError, r.systemic⟩

/-- The outer loop of the worker over the fallback order (src lines
436-456).  `net` maps a model's api identifier to the stream the Provider
Client yields for it (in the source, chat_with_cypher_alpha on the fixed
message log).  Each candidate contributes its status event and relayed
events; the loop breaks after a candidate that succeeded
(stream_had_content and not last_item_was_error) or that hit a systemic
error (has_succeeded set inside the inner loop). -/
def runFallback (net : String → List StreamItem) : List ModelDesc → List QueueEvent
  | [] => []
  | m :: rest =>
      let r := runCandidate m.display (net m.api) false false
      let evts := QueueEvent.status ("Trying model: " ++ m.display ++ "...") :: r.events
      if r.hadContent && !r.lastWasError then evts
      else if r.systemic then evts
      else evts ++ runFallback net rest

/-- Shallow embedding of _stream_worker_with_fallback (src lines 428-457):
the full sequence of events the worker puts on the queue, ending with the
None end-of-turn marker. -/
def stream_worker_with_fallback (net : String → List StreamItem)
    (models : List ModelDesc) (selected : String) : List QueueEvent :=
  runFallback net (fallback_order models selected) ++ [QueueEvent.endOfTurn]

/-- The network oracle used when each model's HTTP outcome is given by
`env`: the worker calls chat_with_cypher_alpha on the model's api name. -/
def netOf (env : String → HttpResponse) (api : String) : List StreamItem :=
  chat_with_cypher_alpha api (env api)

/-! ### Session message log and the queue consumer -/

/-- One part of a multimodal content list: \x7b"type": "text", "text": t\x7d
or \x7b"type": "image_url", "image_url": \x7b"url": u\x7d\x7d. -/
inductive ContentPart where
  | text (t : String)
  | imageUrl (url : String)
deriving DecidableEq, Repr

/-- Content of a message: a plain string, or a list of parts (used when
images are staged). -/
inductive MsgContent where
  | text (s : String)
  | parts (ps : List ContentPart)
deriving DecidableEq, Repr

/-- One entry of self.messages: \x7b"role": r, "content": c\x7d. -/
structure Message where
  role : String
  content : MsgContent
deriving DecidableEq, Repr

/-- The consumer-side state touched by process_stream_queue and its
handlers: self.is_streaming, self.current_stream_content, self.messages. -/
structure ConsumerState where
  is_streaming : Bool
  buffer : List String
  log : List Message
deriving DecidableEq, Repr

/-- Effect of one drained queue event on the consumer state (src lines
466-494 and the handlers).  A content item initializes the buffer when a
stream is not yet marked active and appends the delta; a status item only
touches the status bar; a rate_limit error runs _handle_rate_limit, which
defers _reset_ui to the end of the cooldown timer and so leaves these
fields unchanged at drain time; any other error runs _handle_generic_error,
whose _reset_ui clears is_streaming and the buffer.  The end-of-turn None
is handled by the driver below, not here. -/
def stepEvent (st : ConsumerState) : QueueEvent → ConsumerState
  | QueueEvent.status _ => st
  | QueueEvent.content d _ =>
      ⟨true, (if st.is_streaming then st.buffer else []) ++ [d], st.log⟩
  | QueueEvent.errorEvt e =>
      if e.subtype = ErrorSubtype.rate_limit then st else ⟨false, [], st.log⟩
  | QueueEvent.endOfTurn => st

/-- Handling of the drained None marker: _on_stream_complete finalizes the
joined buffer into an assistant message when is_streaming is set, else
_reset_ui discards the turn (src lines 462-465 and 503-518); either way
_reset_ui clears the flags. -/
def finalizeTurn (st : ConsumerState) : ConsumerState :=
  if st.is_streaming then
    ⟨false, [], st.log ++ [⟨"assistant", MsgContent.text (String.join st.buffer)⟩]⟩
  else
    ⟨false, [], st.log⟩

/-- The consumer loop: drain queue events in order until the None marker,
then finalize. -/
def process_stream_queue (st : ConsumerState) : List QueueEvent → ConsumerState
  | [] => st
  | QueueEvent.endOfTurn :: _ => finalizeTurn st
  | e :: rest => process_stream_queue (stepEvent st e) rest

/-! ### JSON export / import of the message log -/

/-- JSON values, the shape handled by json.dump / json.load for the
message log. -/
inductive Json where
  | str (s : String)
  | arr (xs : List Json)
  | obj (fields : List (String × Json))

/-- Serialization of one content part to its JSON dict. -/
def encodePart : ContentPart → Json
  | ContentPart.text t => Json.obj [("type", Json.str "text"), ("text", Json.str t)]
  | ContentPart.imageUrl u =>
      Json.obj [("type", Json.str "image_url"),
                ("image_url", Json.obj [("url", Json.str u)])]

/-- Serialization of one message record to its JSON dict. -/
def encodeMessage (m : Message) : Json :=
  Json.obj [("role", Json.str m.role),
            ("content",
              match m.content with
              | MsgContent.text s => Json.str s
              | MsgContent.parts ps => Json.arr (ps.map encodePart))]

/-- export_chat (src lines 652-656): json.dump of self.messages, modelled
as the JSON value written to the file. -/
def export_chat (msgs : List Message) : Json :=
  Json.arr (msgs.map encodeMessage)

/-- Reading one content part back from its JSON dict (the shape the
source's display_message walks: part["type"], part["text"],
part["image_url"]["url"]). -/
def decodePart : Json → Option ContentPart
  | Json.obj [("type", Json.str "text"), ("text", Json.str t)] =>
      some (ContentPart.text t)
  | Json.obj [("type", Json.str "image_url"),
              ("image_url", Json.obj [("url", Json.str u)])] =>
      some (ContentPart.imageUrl u)
  | _ => none

/-- Reading a list of content parts back, failing if any part fails. -/
def decodeParts : List Json → Option (List ContentPart)
  | [] => some []
  | j :: rest =>
      match decodePart j, decodeParts rest with
      | some p, some ps => some (p :: ps)
      | _, _ => none

/-- Reading one message record back from its JSON dict. -/
def decodeMessage : Json → Option Message
  | Json.obj [("role", Json.str r), ("content", Json.str s)] =>
      some ⟨r, MsgContent.text s⟩
  | Json.obj [("role", Json.str r), ("content", Json.arr ps)] =>
      (decodeParts ps).map (fun xs => ⟨r, MsgContent.parts xs⟩)
  | _ => none

/-- Reading a list of message records back, failing if any fails. -/
def decodeMessages : List Json → Option (List Message)
  | [] => some []
  | j :: rest =>
      match decodeMessage j, decodeMessages rest with
      | some m, some ms => some (m :: ms)
      | _, _ => none

/-- import_chat (src lines 658-666): json.load of the file followed by
self.messages = data, modelled as reading the message list back from the
JSON value previously written. -/
def import_chat (j : Json) : Option (List Message) :=
  match j with
  | Json.arr xs => decodeMessages xs
  | _ => none

/-! ### Registry refresh from the remote catalog -/

/-- One record of the models-listing response: model_data.get("id", "")
and the optional "name" field (model_data.get("name", model_id)). -/
structure CatalogEntry where
  id : String
  name : Option String
deriving DecidableEq, Repr

/-- Derivation of the registry entry from a catalog record:
display = name-or-id with every " (free)" removed and surrounding
whitespace stripped; api = the raw id. -/
def toFreeModel (e : CatalogEntry) : ModelDesc :=
  ⟨((e.name.getD e.id).replace " (free)" "").trim, e.id⟩

/-- The ascending comparison on display names used by
sorted(free_models, key=lambda x: x["display"]). -/
def displayLe (a b : ModelDesc) : Bool :=
  decide (a.display ≤ b.display)

/-- Shallow embedding of the success path of _fetch_models_worker (src
lines 525-542): keep the catalog entries whose id ends with ":free",
derive their display names, and sort ascending by display name. -/
def fetch_models_worker (catalog : List CatalogEntry) : List ModelDesc :=
  (((catalog.filter (fun e => e.id.endsWith ":free")).map toFreeModel).mergeSort displayLe)

/-! ### Helper lemmas -/

theorem runCandidate_no_endOfTurn (display : String) :
    ∀ (items : List StreamItem) (hadC lastE : Bool),
      QueueEvent.endOfTurn ∉ (runCandidate display items hadC lastE).events := by
  intro items
  induction items with
  | nil => intro hadC lastE; simp [runCandidate]
  | cons x rest ih =>
    intro hadC lastE
    cases x with
    | content s =>
        simp only [runCandidate, List.mem_cons]
        rintro (h | h)
        · exact QueueEvent.noConfusion h
        · exact ih true false h
    | error e =>
        by_cases hs : isSystemic e.subtype
        · simp [runCandidate, hs]
        · simp only [runCandidate, hs, if_neg, Bool.false_eq_true, List.mem_cons,
            not_false_eq_true]
          rintro (h | h)
          · exact QueueEvent.noConfusion h
          · exact ih hadC true h
    | endMarker => simp [runCandidate]

theorem runFallback_no_endOfTurn (net : String → List StreamItem) :
    ∀ (models : List ModelDesc), QueueEvent.endOfTurn ∉ runFallback net models := by
  intro models
  induction models with
  | nil => simp [runFallback]
  | cons m rest ih =>
    have hc := runCandidate_no_endOfTurn m.display (net m.api) false false
    simp only [runFallback]
    split
    · intro hmem
      rcases List.mem_cons.mp hmem with h | h
      · exact QueueEvent.noConfusion h
      · exact hc h
    · split
      · intro hmem
        rcases List.mem_cons.mp hmem with h | h
        · exact QueueEvent.noConfusion h
        · exact hc h
      · intro hmem
        rw [List.cons_append] at hmem
        rcases List.mem_cons.mp hmem with h | h
        · exact QueueEvent.noConfusion h
        · rcases List.mem_append.mp h with h | h
          · exact hc h
          · exact ih h

/-- Relay of stream items onto the queue the way the worker's inner loop
does for items that do not break the loop: content chunks are tagged with
the display name, error dicts are forwarded unchanged. -/
def relayEvents (display : String) : List StreamItem → List QueueEvent
  | [] => []
  | StreamItem.content s :: rest => QueueEvent.content s display :: relayEvents display rest
  | StreamItem.error e :: rest => QueueEvent.errorEvt e :: relayEvents display rest
  | StreamItem.endMarker :: rest => relayEvents display rest

/-- Items that keep the inner loop going: content chunks and non-systemic
errors (no end marker, no systemic error). -/
def cleanItem : StreamItem → Bool
  | StreamItem.content _ => true
  | StreamItem.error e => !isSystemic e.subtype
  | StreamItem.endMarker => false

theorem runCandidate_systemic (display : String) (e : ErrorEvent)
    (he : isSystemic e.subtype = true) :
    ∀ (pre : List StreamItem), pre.all cleanItem = true →
      ∀ (suffix : List StreamItem) (hadC lastE : Bool),
        (runCandidate display (pre ++ StreamItem.error e :: suffix) hadC lastE).events =
            relayEvents display pre ++ [QueueEvent.errorEvt e] ∧
          (runCandidate display (pre ++ StreamItem.error e :: suffix) hadC lastE).lastWasError
            = true ∧
          (runCandidate display (pre ++ StreamItem.error e :: suffix) hadC lastE).systemic
            = true := by
  intro pre
  induction pre with
  | nil =>
    intro _ suffix hadC lastE
    simp [runCandidate, he, relayEvents]
  | cons x rest ih =>
    intro hall suffix hadC lastE
    rw [List.all_cons, Bool.and_eq_true] at hall
    cases x with
    | content s =>
        have := ih hall.2 suffix true false
        simp only [List.cons_append, runCandidate, relayEvents, List.append_eq]
        exact ⟨by rw [this.1], this.2.1, this.2.2⟩
    | error e2 =>
        have hns : isSystemic e2.subtype = false := by
          have := hall.1
          simp only [cleanItem, Bool.not_eq_true'] at this
          exact this
        have := ih hall.2 suffix hadC true
        simp only [List.cons_append, runCandidate, relayEvents, hns, Bool.false_eq_true,
          if_neg, not_false_eq_true, List.append_eq]
        exact ⟨by rw [this.1], this.2.1, this.2.2⟩
    | endMarker =>
        exact absurd hall.1 (by simp [cleanItem])

theorem startIndex_le_length (models : List ModelDesc) (selected : String) :
    startIndex models selected ≤ models.length := by
  unfold startIndex
  cases hfi : models.findIdx? (fun m => m.display == selected) with
  | none => exact Nat.zero_le _
  | some i =>
      exact Nat.le_of_lt (List.findIdx?_eq_some_iff_findIdx_eq.mp hfi).1

theorem startIndex_lt_length (models : List ModelDesc) (selected : String)
    (h : 0 < models.length) : startIndex models selected < models.length := by
  unfold startIndex
  cases hfi : models.findIdx? (fun m => m.display == selected) with
  | none => exact h
  | some i =>
      exact (List.findIdx?_eq_some_iff_findIdx_eq.mp hfi).1

/-! ### Claim theorems -/

/-- C1: the fallback rotation has the registry's length and is the registry
read circularly from the start index: entry j of the rotation is registry
entry (startIndex + j) mod length.  When the selected display name occurs
in the registry the rotation starts with a model carrying that name; when
it does not, the start index is 0. -/
theorem rotation_length_and_order (models : List ModelDesc) (selected : String) :
    (fallback_order models selected).length = models.length ∧
    (∀ j, j < models.length →
      (fallback_order models selected)[j]? =
        models[(startIndex models selected + j) % models.length]?) ∧
    ((∃ m, m ∈ models ∧ m.display = selected) →
      ∃ m0, (fallback_order models selected).head? = some m0 ∧ m0.display = selected) ∧
    ((∀ m, m ∈ models → m.display ≠ selected) → startIndex models selected = 0) := by
  have hle := startIndex_le_length models selected
  refine ⟨?_, ?_, ?_, ?_⟩
  · simp only [fallback_order, List.length_append, List.length_drop, List.length_take]
    omega
  · intro j hj
    have hi := startIndex_lt_length models selected (Nat.lt_of_le_of_lt (Nat.zero_le j) hj)
    unfold fallback_order
    by_cases hcase : j < models.length - startIndex models selected
    · rw [List.getElem?_append_left (by rw [List.length_drop]; omega), List.getElem?_drop]
      congr 1
      rw [Nat.mod_eq_of_lt (by omega)]
    · rw [List.getElem?_append_right (by rw [List.length_drop]; omega),
        List.length_drop, List.getElem?_take_of_lt (by omega)]
      congr 1
      rw [Nat.mod_eq_sub_mod (by omega), Nat.mod_eq_of_lt (by omega)]
      omega
  · rintro ⟨m, hm, hdisp⟩
    have hany : models.any (fun m => m.display == selected) = true :=
      List.any_eq_true.mpr ⟨m, hm, by simp [hdisp]⟩
    have hsome : (models.findIdx? (fun m => m.display == selected)).isSome = true := by
      rw [List.findIdx?_isSome]; exact hany
    obtain ⟨i, hfi⟩ := Option.isSome_iff_exists.mp hsome
    obtain ⟨hlt, hp, -⟩ := List.findIdx?_eq_some_iff_getElem.mp hfi
    have histart : startIndex models selected = i := by
      unfold startIndex; rw [hfi]
    refine ⟨models[i], ?_, by simpa using hp⟩
    rw [List.head?_eq_getElem?]
    unfold fallback_order
    rw [List.getElem?_append_left (by rw [List.length_drop]; omega), List.getElem?_drop,
      histart, Nat.add_zero]
    exact List.getElem?_eq_getElem hlt
  · intro hall
    have : models.findIdx? (fun m => m.display == selected) = none := by
      rw [List.findIdx?_eq_none_iff]
      intro x hx
      simpa using hall x hx
    unfold startIndex
    rw [this]

/-- A two-model registry used to instantiate the hypothesized theorems. -/
def exReg : List ModelDesc := [⟨"A", "a"⟩, ⟨"B", "b"⟩]

theorem decodePart_encodePart (p : ContentPart) : decodePart (encodePart p) = some p := by
  cases p <;> rfl

theorem decodeParts_encodeParts (ps : List ContentPart) :
    decodeParts (ps.map encodePart) = some ps := by
  induction ps with
  | nil => rfl
  | cons p rest ih => simp [decodeParts, decodePart_encodePart, ih]

theorem decodeMessage_encodeMessage (m : Message) :
    decodeMessage (encodeMessage m) = some m := by
  rcases m with ⟨role, content⟩
  cases content with
  | text s => rfl
  | parts ps => simp [encodeMessage, decodeMessage, decodeParts_encodeParts ps]

theorem decodeMessages_encodeMessages (msgs : List Message) :
    decodeMessages (msgs.map encodeMessage) = some msgs := by
  induction msgs with
  | nil => rfl
  | cons m rest ih => simp [decodeMessages, decodeMessage_encodeMessage, ih]

/-- C8: exporting the message log and importing the exported data gives
back the identical ordered message sequence. -/
theorem export_import_roundtrip (msgs : List Message) :
    import_chat (export_chat msgs) = some msgs := by
  simp only [import_chat, export_chat]
  exact decodeMessages_encodeMessages msgs

/-- Test for a content event among the drained queue events. -/
def isContentEvt : QueueEvent → Bool
  | QueueEvent.content _ _ => true
  | _ => false

/-- Among the content deltas and turn-resetting errors of the event list,
whether the last one is a content delta; `d` is the answer when the list
has neither. -/
def lastRelevantIsContent : List QueueEvent → Bool → Bool
  | [], d => d
  | QueueEvent.content _ _ :: es, _ => lastRelevantIsContent es true
  | QueueEvent.errorEvt e :: es, d =>
      if e.subtype = ErrorSubtype.rate_limit then lastRelevantIsContent es d
      else lastRelevantIsContent es false
  | QueueEvent.status _ :: es, d => lastRelevantIsContent es d
  | QueueEvent.endOfTurn :: es, d => lastRelevantIsContent es d

/-- The content deltas received after the last turn-resetting error (after
the start, when there is none), in order. -/
def deltasSinceReset : List QueueEvent → List String → List String
  | [], acc => acc
  | QueueEvent.content d _ :: es, acc => deltasSinceReset es (acc ++ [d])
  | QueueEvent.errorEvt e :: es, acc =>
      if e.subtype = ErrorSubtype.rate_limit then deltasSinceReset es acc
      else deltasSinceReset es []
  | QueueEvent.status _ :: es, acc => deltasSinceReset es acc
  | QueueEvent.endOfTurn :: es, acc => deltasSinceReset es acc

theorem foldl_stepEvent_spec :
    ∀ (events : List QueueEvent) (st : ConsumerState),
      (st.is_streaming = false → st.buffer = []) →
      (List.foldl stepEvent st events).is_streaming
          = lastRelevantIsContent events st.is_streaming ∧
      (List.foldl stepEvent st events).buffer = deltasSinceReset events st.buffer ∧
      (List.foldl stepEvent st events).log = st.log ∧
      ((List.foldl stepEvent st events).is_streaming = false →
        (List.foldl stepEvent st events).buffer = []) := by
  intro events
  induction events with
  | nil => intro st hinv; exact ⟨rfl, rfl, rfl, hinv⟩
  | cons e es ih =>
    intro st hinv
    rw [List.foldl_cons]
    cases e with
    | status msg =>
        simpa only [stepEvent, lastRelevantIsContent, deltasSinceReset] using ih st hinv
    | content d name =>
        have hbuf : (if st.is_streaming then st.buffer else []) = st.buffer := by
          cases hb : st.is_streaming
          · simp [hb, hinv hb]
          · simp [hb]
        have h := ih ⟨true, st.buffer ++ [d], st.log⟩ (by intro hc; simp at hc)
        simp only [stepEvent, hbuf, lastRelevantIsContent, deltasSinceReset]
        exact h
    | errorEvt err =>
        by_cases hrl : err.subtype = ErrorSubtype.rate_limit
        · simp only [stepEvent, lastRelevantIsContent, deltasSinceReset, if_pos hrl]
          exact ih st hinv
        · simp only [stepEvent, lastRelevantIsContent, deltasSinceReset, if_neg hrl]
          exact ih ⟨false, [], st.log⟩ (fun _ => rfl)
    | endOfTurn =>
        simpa only [stepEvent, lastRelevantIsContent, deltasSinceReset] using ih st hinv

theorem process_eq_foldl :
    ∀ (events : List QueueEvent) (st : ConsumerState),
      QueueEvent.endOfTurn ∉ events →
      process_stream_queue st (events ++ [QueueEvent.endOfTurn]) =
        finalizeTurn (List.foldl stepEvent st events) := by
  intro events
  induction events with
  | nil => intro st _; rfl
  | cons e es ih =>
    intro st hmem
    have hes : QueueEvent.endOfTurn ∉ es := fun h => hmem (List.mem_cons_of_mem e h)
    rw [List.cons_append, List.foldl_cons]
    cases e with
    | status m => exact ih (stepEvent st (QueueEvent.status m)) hes
    | content d name => exact ih (stepEvent st (QueueEvent.content d name)) hes
    | errorEvt err => exact ih (stepEvent st (QueueEvent.errorEvt err)) hes
    | endOfTurn => exact absurd (List.mem_cons_self _ _) hmem

/-- Witness for rotation_length_and_order: selecting the second model of a
two-model registry, the rotation wraps and starts with the selection. -/
theorem rotation_length_and_order_witness :
    (fallback_order exReg "B")[0]? = exReg[(startIndex exReg "B" + 0) % exReg.length]? ∧
    (∃ m0, (fallback_order exReg "B").head? = some m0 ∧ m0.display = "B") :=
  ⟨(rotation_length_and_order exReg "B").2.1 0 (by decide),
   (rotation_length_and_order exReg "B").2.2.1 ⟨⟨"B", "b"⟩, by decide, rfl⟩⟩

/-- C7: with an empty model registry the rotation is empty and the worker
run pushes the end-of-turn marker as its only event: no status, content or
error event is emitted. -/
theorem empty_registry_only_end_of_turn (net : String → List StreamItem) (selected : String) :
    stream_worker_with_fallback net [] selected = [QueueEvent.endOfTurn] := rfl

/-- C6: every worker run, whatever the registry, selection and network
outcomes, pushes the end-of-turn marker exactly once, and that marker is
the last event pushed. -/
theorem end_of_turn_exactly_once (net : String → List StreamItem)
    (models : List ModelDesc) (selected : String) :
    (stream_worker_with_fallback net models selected).count QueueEvent.endOfTurn = 1 ∧
    (stream_worker_with_fallback net models selected).getLast? = some QueueEvent.endOfTurn := by
  constructor
  · unfold stream_worker_with_fallback
    rw [List.count_append,
      List.count_eq_zero_of_not_mem (runFallback_no_endOfTurn net (fallback_order models selected))]
    rfl
  · exact List.getLast?_concat _

/-- C2: if a candidate's stream produced at least one content delta and the
last item received from it was not an error, the fallback loop breaks right
after that candidate: the run's events are exactly the status event and the
candidate's relayed events, independent of the candidates remaining after
it, so no later candidate is attempted (no further status event and no
further Provider Client call).  The candidate is the head of the remaining
rotation, which is the rotation's position-k candidate for the run that
reaches position k. -/
theorem success_stops_fallback (net : String → List StreamItem) (m : ModelDesc)
    (rest : List ModelDesc)
    (h1 : (runCandidate m.display (net m.api) false false).hadContent = true)
    (h2 : (runCandidate m.display (net m.api) false false).lastWasError = false) :
    runFallback net (m :: rest) =
      QueueEvent.status ("Trying model: " ++ m.display ++ "...") ::
        (runCandidate m.display (net m.api) false false).events := by
  simp only [runFallback, h1, h2, Bool.not_false, Bool.and_self, if_pos]

/-- C3: when a candidate's stream reaches an error of systemic subtype
(auth_error, rate_limit or network — the source strings for the spec's
auth, rate_limit, network), the worker relays the preceding items and then
exactly that error, and stops everything at once: the result does not
depend on the rest of that stream (`suffix` does not occur in it, so no
further event of the stream is consumed) nor on the remaining candidates
(`rest` does not occur in it, so no later candidate is attempted), and this
holds even when `pre` contains content chunks already relayed. -/
theorem systemic_error_aborts_fallback (net : String → List StreamItem) (m : ModelDesc)
    (rest : List ModelDesc) (pre suffix : List StreamItem) (e : ErrorEvent)
    (hnet : net m.api = pre ++ StreamItem.error e :: suffix)
    (hpre : pre.all cleanItem = true)
    (he : isSystemic e.subtype = true) :
    runFallback net (m :: rest) =
      QueueEvent.status ("Trying model: " ++ m.display ++ "...") ::
        (relayEvents m.display pre ++ [QueueEvent.errorEvt e]) := by
  have h := runCandidate_systemic m.display e he pre hpre suffix false false
  simp only [runFallback, hnet, h.2.1, Bool.not_true, Bool.and_false, Bool.false_eq_true,
    if_neg, not_false_eq_true, h.2.2, if_pos, h.1]

/-- Witness for systemic_error_aborts_fallback: one content chunk already
streamed, then a rate-limit error, with an unread tail and another
candidate remaining. -/
theorem systemic_error_aborts_fallback_witness :
    runFallback
        (fun _ => [StreamItem.content "partial",
          StreamItem.error ⟨ErrorSubtype.rate_limit, "Rate limit reached. Please wait.", some 20⟩,
          StreamItem.content "unread", StreamItem.endMarker])
        (⟨"A", "a"⟩ :: [⟨"B", "b"⟩]) =
      QueueEvent.status ("Trying model: " ++ "A" ++ "...") ::
        (relayEvents "A" [StreamItem.content "partial"] ++
          [QueueEvent.errorEvt
            ⟨ErrorSubtype.rate_limit, "Rate limit reached. Please wait.", some 20⟩]) :=
  systemic_error_aborts_fallback
    (fun _ => [StreamItem.content "partial",
      StreamItem.error ⟨ErrorSubtype.rate_limit, "Rate limit reached. Please wait.", some 20⟩,
      StreamItem.content "unread", StreamItem.endMarker])
    ⟨"A", "a"⟩ [⟨"B", "b"⟩] [StreamItem.content "partial"]
    [StreamItem.content "unread", StreamItem.endMarker]
    ⟨ErrorSubtype.rate_limit, "Rate limit reached. Please wait.", some 20⟩
    rfl (by decide) (by decide)

/-- Every error yielded by the body loop of a 2xx streamed response is a
parse error: the loop only raises on malformed fragments. -/
theorem processLines_error_parse (model : String) :
    ∀ (lines : List WireLine) (e : ErrorEvent),
      StreamItem.error e ∈ processLines model lines → e.subtype = ErrorSubtype.parse := by
  intro lines
  induction lines with
  | nil => intro e h; simp [processLines] at h
  | cons x rest ih =>
    intro e h
    cases x with
    | other => exact ih e h
    | done => simp [processLines] at h
    | fragment c =>
        cases c with
        | none => exact ih e h
        | some s =>
            rcases List.mem_cons.mp h with h | h
            · exact absurd h (by simp [processLines])
            · exact ih e h
    | malformed raw =>
        rcases List.mem_cons.mp h with h | h
        · injection h with h2
          subst h2
          rfl
        · exact ih e h

theorem pair_error_end_index (e0 : ErrorEvent) (i : Nat) (e : ErrorEvent)
    (h : ([StreamItem.error e0, StreamItem.endMarker] : List StreamItem)[i]? =
      some (StreamItem.error e)) : i = 0 ∧ e = e0 := by
  match i with
  | 0 =>
      simp only [List.getElem?_cons_zero, Option.some.injEq, StreamItem.error.injEq] at h
      exact ⟨rfl, h.symm⟩
  | 1 => simp at h
  | n + 2 => simp at h

/-- C5 (amended): every error event of non-parse subtype is immediately
followed by the end marker, which is the stream's last item, so no content
chunk ever follows such an error.  Parse errors are the exception the
source and the spec both make: the stream continues after them (see the
counterexample theorem). -/
theorem nonparse_error_followed_by_end (model : String) (r : HttpResponse) (i : Nat)
    (e : ErrorEvent)
    (hi : (chat_with_cypher_alpha model r)[i]? = some (StreamItem.error e))
    (hp : e.subtype ≠ ErrorSubtype.parse) :
    (chat_with_cypher_alpha model r)[i + 1]? = some StreamItem.endMarker ∧
    (chat_with_cypher_alpha model r).length = i + 2 := by
  cases r with
  | success lines =>
      exact absurd (processLines_error_parse model lines e (List.getElem?_mem hi)) hp
  | timeout =>
      obtain ⟨h0, -⟩ := pair_error_end_index _ i e hi
      subst h0
      exact ⟨rfl, rfl⟩
  | httpError status body d =>
      obtain ⟨e0, heq⟩ : ∃ e0, chat_with_cypher_alpha model (HttpResponse.httpError status body d)
          = [StreamItem.error e0, StreamItem.endMarker] := by
        simp only [chat_with_cypher_alpha]
        split
        · exact ⟨_, rfl⟩
        · split
          · exact ⟨_, rfl⟩
          · split
            · exact ⟨_, rfl⟩
            · exact ⟨_, rfl⟩
      rw [heq] at hi
      obtain ⟨h0, -⟩ := pair_error_end_index e0 i e hi
      subst h0
      rw [heq]
      exact ⟨rfl, rfl⟩
  | requestException msg =>
      obtain ⟨h0, -⟩ := pair_error_end_index _ i e hi
      subst h0
      exact ⟨rfl, rfl⟩

/-- Witness for nonparse_error_followed_by_end: the timeout stream, whose
network error at index 0 is followed by the end marker at index 1. -/
theorem nonparse_error_followed_by_end_witness :
    (chat_with_cypher_alpha "m" HttpResponse.timeout)[0 + 1]? = some StreamItem.endMarker ∧
    (chat_with_cypher_alpha "m" HttpResponse.timeout).length = 0 + 2 :=
  nonparse_error_followed_by_end "m" HttpResponse.timeout 0
    ⟨ErrorSubtype.network, "Request timed out for " ++ "m" ++ ".", none⟩
    rfl (by decide)

/-- C5 as stated is false: a malformed fragment yields a parse error and
the stream then continues, so content can follow an error event.  The
stream for a 2xx body [malformed "x", fragment "hi"] has the parse error at
index 0 and a content chunk at index 1. -/
theorem content_after_error_counterexample :
    ¬ (∀ (model : String) (r : HttpResponse) (i j : Nat) (e : ErrorEvent) (s : String),
        (chat_with_cypher_alpha model r)[i]? = some (StreamItem.error e) →
        i < j →
        (chat_with_cypher_alpha model r)[j]? ≠ some (StreamItem.content s)) := by
  intro h
  exact h "m" (HttpResponse.success [WireLine.malformed "x", WireLine.fragment (some "hi")])
    0 1 ⟨ErrorSubtype.parse, "Invalid data from " ++ "m" ++ ": " ++ "x", none⟩ "hi"
    rfl (by decide) rfl

/-- C4: every error the Provider Client yields carries one of the six
subtypes, and the mapping is as specified: timeout and any other transport
exception give network; HTTP 401 gives auth_error (the spec's name: auth);
HTTP 429 gives rate_limit with a 20 second cooldown; otherwise HTTP 404 or
a body containing "not found" gives model_not_found; any other HTTP error
gives http (the spec's name: http_other) carrying the server-provided
detail when parseable, else just the raw status. -/
theorem provider_error_subtype_mapping (model : String) (status : Nat) (body : String)
    (d : Option String) (msg : String) :
    (∀ (r : HttpResponse) (e : ErrorEvent),
      StreamItem.error e ∈ chat_with_cypher_alpha model r →
      (e.subtype = ErrorSubtype.parse ∨ e.subtype = ErrorSubtype.network ∨
       e.subtype = ErrorSubtype.auth_error ∨ e.subtype = ErrorSubtype.rate_limit ∨
       e.subtype = ErrorSubtype.model_not_found ∨ e.subtype = ErrorSubtype.http)) ∧
    chat_with_cypher_alpha model HttpResponse.timeout =
      [StreamItem.error ⟨ErrorSubtype.network, "Request timed out for " ++ model ++ ".", none⟩,
       StreamItem.endMarker] ∧
    chat_with_cypher_alpha model (HttpResponse.httpError 401 body d) =
      [StreamItem.error ⟨ErrorSubtype.auth_error,
        "Authentication failed. The API key is invalid or has been revoked.", none⟩,
       StreamItem.endMarker] ∧
    chat_with_cypher_alpha model (HttpResponse.httpError 429 body d) =
      [StreamItem.error ⟨ErrorSubtype.rate_limit, "Rate limit reached. Please wait.", some 20⟩,
       StreamItem.endMarker] ∧
    (status ≠ 401 → status ≠ 429 → (status = 404 ∨ containsNotFound body = true) →
      chat_with_cypher_alpha model (HttpResponse.httpError status body d) =
        [StreamItem.error ⟨ErrorSubtype.model_not_found, "Model not found: " ++ model, none⟩,
         StreamItem.endMarker]) ∧
    (status ≠ 401 → status ≠ 429 → status ≠ 404 → containsNotFound body = false →
      chat_with_cypher_alpha model (HttpResponse.httpError status body d) =
        [StreamItem.error ⟨ErrorSubtype.http, httpDetails model status d, none⟩,
         StreamItem.endMarker]) ∧
    chat_with_cypher_alpha model (HttpResponse.requestException msg) =
      [StreamItem.error ⟨ErrorSubtype.network, msg, none⟩, StreamItem.endMarker] := by
  refine ⟨?_, rfl, ?_, ?_, ?_, ?_, rfl⟩
  · rintro r ⟨st, m2, cd⟩ _
    cases st <;> simp
  · simp [chat_with_cypher_alpha]
  · simp [chat_with_cypher_alpha]
  · intro h1 h2 h3
    have b1 : (status == 401) = false := by simp [h1]
    have b2 : (status == 429) = false := by simp [h2]
    have b3 : (containsNotFound body || status == 404) = true := by
      rcases h3 with h | h
      · simp [h]
      · simp [h]
    simp [chat_with_cypher_alpha, b1, b2, b3]
  · intro h1 h2 h3 h4
    have b1 : (status == 401) = false := by simp [h1]
    have b2 : (status == 429) = false := by simp [h2]
    have b3 : (containsNotFound body || status == 404) = false := by simp [h3, h4]
    simp [chat_with_cypher_alpha, b1, b2, b3]

/-- Witness for provider_error_subtype_mapping at both hypothesized
branches: a 404 and a plain 500 with a parseable detail. -/
theorem provider_error_subtype_mapping_witness :
    chat_with_cypher_alpha "m" (HttpResponse.httpError 404 "nope" none) =
      [StreamItem.error ⟨ErrorSubtype.model_not_found, "Model not found: " ++ "m", none⟩,
       StreamItem.endMarker] ∧
    chat_with_cypher_alpha "m" (HttpResponse.httpError 500 "oops" (some "busy")) =
      [StreamItem.error ⟨ErrorSubtype.http, httpDetails "m" 500 (some "busy"), none⟩,
       StreamItem.endMarker] :=
  ⟨(provider_error_subtype_mapping "m" 404 "nope" none "x").2.2.2.2.1
      (by decide) (by decide) (Or.inl rfl),
   (provider_error_subtype_mapping "m" 500 "oops" (some "busy") "x").2.2.2.2.2.1
      (by decide) (by decide) (by decide) (by decide)⟩

/-- Witness for success_stops_fallback at a concrete one-chunk stream and a
non-empty tail of remaining candidates. -/
theorem success_stops_fallback_witness :
    runFallback (fun _ => [StreamItem.content "hi", StreamItem.endMarker])
        (⟨"A", "a"⟩ :: [⟨"B", "b"⟩]) =
      QueueEvent.status ("Trying model: " ++ "A" ++ "...") ::
        (runCandidate "A"
          ((fun _ => [StreamItem.content "hi", StreamItem.endMarker]) "a") false false).events :=
  success_stops_fallback (fun _ => [StreamItem.content "hi", StreamItem.endMarker])
    ⟨"A", "a"⟩ [⟨"B", "b"⟩] (by decide) (by decide)

/-- C9 (amended): draining the events of a turn appends an assistant
message if and only if the last event among content deltas and
non-rate-limit errors is a content delta — that is, at least one content
delta was received and no non-rate-limit error event arrived after the last
delta.  The appended content is the concatenation of the deltas received
since the last non-rate-limit error.  In particular a turn that received no
content delta at all appends nothing.  (A rate-limit error does not reset
the turn at drain time because _handle_rate_limit defers _reset_ui to the
cooldown timer.) -/
theorem finalize_appends_iff (events : List QueueEvent) (log : List Message)
    (hno : QueueEvent.endOfTurn ∉ events) :
    (process_stream_queue ⟨false, [], log⟩ (events ++ [QueueEvent.endOfTurn])).log =
      (if lastRelevantIsContent events false then
        log ++ [⟨"assistant", MsgContent.text (String.join (deltasSinceReset events []))⟩]
       else log) := by
  rw [process_eq_foldl events ⟨false, [], log⟩ hno]
  obtain ⟨h1, h2, h3, -⟩ := foldl_stepEvent_spec events ⟨false, [], log⟩ (fun _ => rfl)
  unfold finalizeTurn
  rw [h1, h2, h3]
  by_cases hb : lastRelevantIsContent events false = true
  · rw [if_pos hb, if_pos hb]
  · rw [if_neg hb, if_neg hb]

/-- Witness for finalize_appends_iff: a status event and one delta, which
finalize into an assistant message "hi". -/
theorem finalize_appends_iff_witness :
    (process_stream_queue ⟨false, [], []⟩
        ([QueueEvent.status "s", QueueEvent.content "hi" "A"] ++ [QueueEvent.endOfTurn])).log =
      (if lastRelevantIsContent [QueueEvent.status "s", QueueEvent.content "hi" "A"] false then
        [] ++ [⟨"assistant", MsgContent.text (String.join (deltasSinceReset
          [QueueEvent.status "s", QueueEvent.content "hi" "A"] []))⟩]
       else []) :=
  finalize_appends_iff [QueueEvent.status "s", QueueEvent.content "hi" "A"] [] (by decide)

/-- HTTP outcomes for the C9 counterexample run: the only model streams one
content chunk and then a malformed fragment. -/
def envC9 : String → HttpResponse :=
  fun _ => HttpResponse.success [WireLine.fragment (some "hi"), WireLine.malformed "x"]

/-- C9 as stated is false: in this full worker-plus-consumer run a content
delta is received ("hi", before a trailing parse error), yet no assistant
message is appended — the generic error handler reset the turn, so
"appended iff at least one delta was received" fails in the only-if
direction. -/
theorem append_iff_delta_counterexample :
    (process_stream_queue ⟨false, [], []⟩
        (stream_worker_with_fallback (netOf envC9) [⟨"A", "a"⟩] "A")).log = [] ∧
    (stream_worker_with_fallback (netOf envC9) [⟨"A", "a"⟩] "A").any isContentEvt = true :=
  ⟨by decide, by decide⟩

/-- C10: after a successful catalog refresh the replacement registry is
exactly the catalog entries whose identifier ends with ":free" (with
display names derived by stripping the " (free)" decoration), reordered
ascending by display name. -/
theorem fetch_models_filter_and_sorted (catalog : List CatalogEntry) :
    (fetch_models_worker catalog).all (fun m => m.api.endsWith ":free") = true ∧
    List.Perm (fetch_models_worker catalog)
      ((catalog.filter (fun e => e.id.endsWith ":free")).map toFreeModel) ∧
    List.Pairwise (fun a b => a.display ≤ b.display) (fetch_models_worker catalog) := by
  refine ⟨?_, ?_, ?_⟩
  · rw [List.all_eq_true]
    intro m hm
    rw [fetch_models_worker, List.mem_mergeSort] at hm
    obtain ⟨e, he, hme⟩ := List.mem_map.mp hm
    subst hme
    exact (List.mem_filter.mp he).2
  · exact List.mergeSort_perm _ _
  · have h := @List.sorted_mergeSort ModelDesc displayLe
      (fun a b c hab hbc => by
        simp only [displayLe, decide_eq_true_eq] at hab hbc ⊢
        exact le_trans hab hbc)
      (fun a b => by
        simp only [displayLe, Bool.or_eq_true, decide_eq_true_eq]
        exact le_total a.display b.display)
      ((catalog.filter (fun e => e.id.endsWith ":free")).map toFreeModel)
    exact h.imp (fun hab => by simpa [displayLe] using hab)

end OpenRouterFree
